import Mathlib

/-!
Verification of the git-dx integration engine (src/main.rs, src/git.rs, src/err.rs).

The development shallowly embeds the Rust sources: pure functions become Lean
functions, and every call into the external git binary is abstracted as a field
of an explicit environment record, so that the control flow of the Rust code is
preserved while backend behaviour stays a parameter of each theorem.
-/

namespace GitDx

/-- Constant BRANCH_DIRECTIVE from main.rs. -/
def BRANCH_DIRECTIVE : String := "wchargin-branch"

/-- Constant SOURCE_DIRECTIVE from main.rs. -/
def SOURCE_DIRECTIVE : String := "wchargin-source"

/-- Constant BRANCH_PREFIX from main.rs (renamed to avoid a reserved suffix). -/
def BRANCH_PFX : String := "wchargin-"

/-- Commit record from git.rs: canonical oid, ordered parents, tree id, raw message. -/
structure Commit where
  oid : String
  parents : List String
  tree : String
  message : String
deriving Repr, DecidableEq

/-- Error type from err.rs. IoError and InvalidEncoding do not arise in the pure
embedding; PanicAssert models a Rust assertion failure (assert_eq in git.rs). -/
inductive Err where
  | NoSuchCommit (ref : String)
  | MissingTrailer (oid : String) (key : String)
  | DuplicateTrailer (oid : String) (key : String)
  | GitContract (msg : String)
  | PanicAssert (msg : String)
deriving Repr, DecidableEq

/-- TrailerMatch from main.rs: classification of the occurrences of a trailer key. -/
inductive TrailerMatch where
  | Missing (key : String)
  | Duplicate (key : String)
  | Unique (key : String) (value : String)
deriving Repr, DecidableEq

/-- TrailerMatch::plus from main.rs: absorb one further value for the key. -/
def TrailerMatch.plus : TrailerMatch → String → TrailerMatch
  | .Missing key, value => .Unique key value
  | .Unique key _, _ => .Duplicate key
  | .Duplicate key, _ => .Duplicate key

/-- TrailerMatch::is_duplicate from main.rs. -/
def TrailerMatch.is_duplicate : TrailerMatch → Bool
  | .Duplicate _ => true
  | _ => false

/-- Loop body of look_up_trailer from main.rs, with the accumulator explicit and
the early return on a duplicate kept as in the source. -/
def lookUpTrailerGo (key : String) : TrailerMatch → List (String × String) → TrailerMatch
  | found, [] => found
  | found, (k, v) :: rest =>
    if k == key then
      if (found.plus v).is_duplicate then found.plus v
      else lookUpTrailerGo key (found.plus v) rest
    else lookUpTrailerGo key found rest

/-- look_up_trailer from main.rs: fold all trailers for a key into a TrailerMatch. -/
def look_up_trailer (key : String) (trailers : List (String × String)) : TrailerMatch :=
  lookUpTrailerGo key (.Missing key) trailers

/-- TrailerMatch::unique from main.rs: demand exactly one occurrence, else fail. -/
def TrailerMatch.unique (t : TrailerMatch) (oid : String) : Except Err String :=
  match t with
  | .Unique _ value => .ok value
  | .Missing key => .error (.MissingTrailer oid key)
  | .Duplicate key => .error (.DuplicateTrailer oid key)

/-- The trailer pairs of a list whose key matches; the sublist look_up_trailer folds over. -/
def matchesOf (key : String) (trailers : List (String × String)) : List (String × String) :=
  trailers.filter (fun p => p.1 == key)

/-- Backend environment for the integration engine: each field abstracts one kind
of call into the git binary made by integrate in main.rs. trailersOf abstracts
the trailers function (git interpret-trailers with parse); resolveRef abstracts
GitStore::rev_parse; commitOf abstracts GitStore::commit on a reference (HEAD is
passed as the oid the engine last checked out or committed); checkoutOk reports
whether the detached checkout of an oid succeeds; merge takes head, other, and
the two message paragraphs, returning the new HEAD oid on merge-command success
and none on merge-command failure; stageOk is the success of staging everything;
conflictCommit is the commit created by committing the conflicted state, none on
failure; rewriteTrailers abstracts the interpret-trailers rewrite of a message
with the branch and source trailer values; commitTree abstracts commit-tree on
tree, parent, and message, none when its output is unparseable. -/
structure GitEnv where
  trailersOf : String → List (String × String)
  resolveRef : String → Option String
  commitOf : String → Option Commit
  checkoutOk : String → Bool
  merge : String → String → String → String → Option String
  stageOk : Bool
  conflictCommit : String → String → Option String
  rewriteTrailers : String → String → String → String
  commitTree : String → String → String → Option String

/-- Commit objects created by a run beyond those made by a successful merge
command: the conflict-finalisation commit of step 4, and the commit-tree call of
step 5 with its tree, parent, message fed on stdin, and resulting oid. -/
inductive Effect where
  | conflictCommit (oid : String)
  | commitTree (tree : String) (parent : String) (msg : String) (result : String)
deriving Repr, DecidableEq

/-- branch_name from main.rs: the prefixed branch for a message, none when the
branch trailer is missing, an error when it is duplicated. -/
def branch_name (trailersOf : String → List (String × String)) (oid : String)
    (msg : String) : Except Err (Option String) :=
  let all_trailers := trailersOf msg
  match (look_up_trailer BRANCH_DIRECTIVE all_trailers).unique oid with
  | .ok v => .ok (some (BRANCH_PFX ++ v))
  | .error (.MissingTrailer _ _) => .ok none
  | .error other => .error other

/-- remote_branch_oid from main.rs: resolve the remote-tracking ref of a branch. -/
def remote_branch_oid (env : GitEnv) (remote : String) (branch : String) : Option String :=
  env.resolveRef ("refs/remotes/" ++ remote ++ "/" ++ branch)

/-- Remote diffbase computation of integrate in main.rs, lines 172 to 179: when
the local diffbase carries a branch trailer and its remote branch resolves, use
that tip, otherwise fall back to the local diffbase oid. -/
def remoteDiffbase (env : GitEnv) (remote : String) (local_diffbase : Commit) :
    Except Err String :=
  match branch_name env.trailersOf local_diffbase.oid local_diffbase.message with
  | .error e => .error e
  | .ok (some name) => .ok ((remote_branch_oid env remote name).getD local_diffbase.oid)
  | .ok none => .ok local_diffbase.oid

/-- Message selection of step 5 in integrate, main.rs lines 227 to 240: the message
handed to the trailer rewrite before the commit-tree call. Each formatted variant
ends with the newline written by the format string in the source. -/
def patchMessage (new_branch : Bool) (same_tree : Bool) (bump : Bool)
    (branch : String) (source_message : String) (message : Option String) : String :=
  if new_branch then source_message
  else if same_tree && bump then "[" ++ branch ++ ": bump ci]\n"
  else if same_tree then "[" ++ branch ++ ": no-op] [ci skip]\n"
  else "[" ++ branch ++ ": " ++ message.getD "update patch" ++ "]\n"

/-- Commit-creating branch of step 5 in integrate, main.rs lines 227 to 286: pick
the message, rewrite its trailers, create the commit with commit-tree, and check
out the result. -/
def patchStep (env : GitEnv) (source_commit : Commit) (base_commit : Commit)
    (same_tree : Bool) (bump : Bool) (new_branch : Bool)
    (branch : String) (message : Option String) : Except Err (String × List Effect) :=
  let msg := patchMessage new_branch same_tree bump branch source_commit.message message
  let rewritten := env.rewriteTrailers msg branch source_commit.oid
  match env.commitTree source_commit.tree base_commit.oid rewritten with
  | none => .error (.GitContract "commit-tree gave bad output")
  | some result =>
    if env.checkoutOk result then
      .ok (result, [Effect.commitTree source_commit.tree base_commit.oid rewritten result])
    else .error (.GitContract "failed to commit merge")

/-- Step 5 of integrate, main.rs lines 223 to 287: when the source tree equals the
post-merge tree and empty commits are not allowed, the post-merge HEAD itself is
the result and nothing is created; otherwise the patch commit is created. -/
def stepFive (env : GitEnv) (source_commit : Commit) (base_commit : Commit)
    (allow_empty : Bool) (bump : Bool) (new_branch : Bool)
    (branch : String) (message : Option String) : Except Err (String × List Effect) :=
  let same_tree := source_commit.tree == base_commit.tree
  if same_tree && !allow_empty then .ok (base_commit.oid, [])
  else patchStep env source_commit base_commit same_tree bump new_branch branch message

/-- Step 4 of integrate, main.rs lines 192 to 217: merge the remote diffbase into
the checked-out head; on merge-command failure stage everything and commit the
conflicted state, failing only if staging or that commit fails. Returns the HEAD
oid afterwards and the commit objects created outside the merge command. -/
def stepFourMerge (env : GitEnv) (head : String) (diffbase : String)
    (branch : String) (source_oid : String) : Except Err (String × List Effect) :=
  let msg1 := "[" ++ branch ++ ": update diffbase]"
  let msg2 := BRANCH_DIRECTIVE ++ ": " ++ branch ++ "\n" ++ SOURCE_DIRECTIVE ++ ": " ++ source_oid
  match env.merge head diffbase msg1 msg2 with
  | some newHead => .ok (newHead, [])
  | none =>
    if env.stageOk then
      match env.conflictCommit head diffbase with
      | some c => .ok (c, [Effect.conflictCommit c])
      | none => .error (.GitContract "failed to commit merge")
    else .error (.GitContract "failed to stage")

/-- IntegrationResult from main.rs (struct Integration). -/
structure Integration where
  remote_commit : String
  target_branch : String
deriving Repr, DecidableEq

/-- integrate from main.rs, lines 140 to 293, with backend calls through GitEnv:
step 0 target branch, step 1 diffbase, step 2 merge head, step 3 checkout,
step 4 merge, step 5 tree comparison and patch commit, step 6 result. Also
returns the list of commit objects created outside the merge command. -/
def integrate (env : GitEnv) (source_commit : Commit) (remote : String)
    (allow_empty : Bool) (bump : Bool) (message : Option String) :
    Except Err (Integration × List Effect) :=
  let source_oid := source_commit.oid
  match branch_name env.trailersOf source_oid source_commit.message with
  | .error e => .error e
  | .ok none => .error (Err.MissingTrailer source_oid BRANCH_DIRECTIVE)
  | .ok (some target_branch) =>
    let target_branch_unprefixed := target_branch.drop BRANCH_PFX.length
    match env.commitOf (source_oid ++ "~^{commit}") with
    | none => .error (Err.NoSuchCommit (source_oid ++ "~^{commit}"))
    | some local_diffbase =>
      match remoteDiffbase env remote local_diffbase with
      | .error e => .error e
      | .ok remote_diffbase =>
        let merge_head_tip := remote_branch_oid env remote target_branch
        let new_branch := merge_head_tip.isNone
        let merge_head := merge_head_tip.getD remote_diffbase
        if env.checkoutOk merge_head then
          match stepFourMerge env merge_head remote_diffbase target_branch_unprefixed
              source_oid with
          | .error e => .error e
          | .ok s4 =>
            match env.commitOf s4.1 with
            | none => .error (Err.NoSuchCommit "HEAD")
            | some base_commit =>
              match stepFive env source_commit base_commit allow_empty bump new_branch
                  target_branch_unprefixed message with
              | .error e => .error e
              | .ok s5 => .ok (⟨s5.1, target_branch⟩, s4.2 ++ s5.2)
        else .error (Err.GitContract ("failed to check out " ++ merge_head))

/-- Flag normalisation in main from main.rs, lines 86 to 88: the bump flag forces
allow_empty before the engine is invoked. -/
def effectiveAllowEmpty (allow_empty : Bool) (bump : Bool) : Bool :=
  if bump then true else allow_empty

/-- CLI path from main in main.rs: the engine is called with the normalised
allow_empty flag. -/
def runCli (env : GitEnv) (source_commit : Commit) (remote : String)
    (allow_empty : Bool) (bump : Bool) (message : Option String) :
    Except Err (Integration × List Effect) :=
  integrate env source_commit remote (effectiveAllowEmpty allow_empty bump) bump message

/-- Concrete source commit used to evaluate the engine on closed inputs. -/
def exSource : Commit := ⟨"S", ["P"], "T", "Fix bug\n\nwchargin-branch: foo"⟩

/-- Concrete source commit whose message has no branch trailer. -/
def exSourceNoTrailer : Commit := ⟨"S2", ["P"], "T", "no trailer here"⟩

/-- Concrete parent commit with no branch trailer in its message. -/
def exParent : Commit := ⟨"P", [], "T", "Initial commit"⟩

/-- Concrete parent commit carrying a branch trailer for the base change. -/
def exParentBase : Commit := ⟨"P", [], "T", "parent\n\nwchargin-branch: base"⟩

/-- Concrete remote tip commit of the target branch, with the source tree. -/
def exTip : Commit := ⟨"R", ["P"], "T", "tip commit"⟩

/-- Concrete backend in which no remote branch exists, merges are no-ops landing
on P, and trailer rewriting is the identity. -/
def exEnv : GitEnv :=
  { trailersOf := fun m =>
      if m = "Fix bug\n\nwchargin-branch: foo" then [(BRANCH_DIRECTIVE, "foo")] else []
    resolveRef := fun _ => none
    commitOf := fun r =>
      if r = "S~^{commit}" then some exParent
      else if r = "P" then some exParent else none
    checkoutOk := fun _ => true
    merge := fun _ _ _ _ => some "P"
    stageOk := true
    conflictCommit := fun _ _ => none
    rewriteTrailers := fun m _ _ => m
    commitTree := fun _ _ _ => some "N" }

/-- Concrete backend in which the remote target branch exists at tip R and the
merge is a no-op landing on R. -/
def exEnvTip : GitEnv :=
  { exEnv with
    resolveRef := fun r => if r = "refs/remotes/origin/wchargin-foo" then some "R" else none
    merge := fun _ _ _ _ => some "R"
    commitOf := fun r =>
      if r = "S~^{commit}" then some exParent
      else if r = "R" then some exTip else none }

/-- Concrete backend in which the parent carries a branch trailer whose remote
branch exists at tip RB. -/
def exEnvB : GitEnv :=
  { exEnv with
    trailersOf := fun m =>
      if m = "Fix bug\n\nwchargin-branch: foo" then [(BRANCH_DIRECTIVE, "foo")]
      else if m = "parent\n\nwchargin-branch: base" then [(BRANCH_DIRECTIVE, "base")]
      else []
    resolveRef := fun r => if r = "refs/remotes/origin/wchargin-base" then some "RB" else none }

/-- Concrete backend in which the merge command fails and committing the
conflicted state produces commit C. -/
def exEnvConflict : GitEnv :=
  { exEnvTip with
    merge := fun _ _ _ _ => none
    conflictCommit := fun _ _ => some "C" }

/-- Newline character, used as the field separator of the show format. -/
def NL : Char := Char.ofNat 10

/-- Space character, the separator inside the parent field. -/
def SP : Char := Char.ofNat 32

/-- Index of the last occurrence of a character, as String::rfind in read_commit
of git.rs, modelled on the character list of the output. -/
def rfindIdx (c : Char) : List Char → Option Nat
  | [] => none
  | a :: l =>
    match rfindIdx c l with
    | some i => some (i + 1)
    | none => if a = c then some 0 else none

/-- Parent-splitting loop of read_commit in git.rs, lines 146 to 161: repeatedly
split off the text after the last space while that space lies after the newline
preceding the parent field, then split at that newline, keeping the last piece
only if nonempty. The accumulator is built with cons, which matches pushing onto
the Rust vector and reversing at the end; the second component is the remaining
text, which becomes the message. The bound i < l.length in the guard always
holds for an index returned by rfindIdx (proved below) and only serves the
termination argument. -/
def parseParentsGo (pre : Nat) (l : List Char) (acc : List (List Char)) :
    List (List Char) × List Char :=
  match rfindIdx SP l with
  | some i =>
    if hi : pre < i ∧ i < l.length then
      parseParentsGo pre (l.take i) (l.drop (i + 1) :: acc)
    else
      (if (l.drop (pre + 1)).isEmpty then acc else l.drop (pre + 1) :: acc, l.take pre)
  | none =>
      (if (l.drop (pre + 1)).isEmpty then acc else l.drop (pre + 1) :: acc, l.take pre)
termination_by l.length
decreasing_by
  simp only [List.length_take]
  omega

/-- Suffix parsing of read_commit in git.rs, lines 120 to 166: anchored at the
end, split off the canonical id after the last newline, then the tree id, then
locate the newline before the parent field and run the parent loop; what remains
is the message. Returns the canonical id, the parents in order, the tree and the
message, or none when a required newline is absent. -/
def readCommitParse (stdout : List Char) :
    Option (List Char × List (List Char) × List Char × List Char) :=
  match rfindIdx NL stdout with
  | none => none
  | some i1 =>
    let output_hash := stdout.drop (i1 + 1)
    let s1 := stdout.take i1
    match rfindIdx NL s1 with
    | none => none
    | some i2 =>
      let tree := s1.drop (i2 + 1)
      let s2 := s1.take i2
      match rfindIdx NL s2 with
      | none => none
      | some i3 =>
        let pr := parseParentsGo i3 s2 []
        some (output_hash, pr.1, tree, pr.2)

/-- Space-separated encoding of a parent list, the form of the parent field
produced by the show format of git.rs. -/
def spaceSeparated : List (List Char) → List Char
  | [] => []
  | [p] => p
  | p :: ps => p ++ SP :: spaceSeparated ps

/-- Backend environment for the commit store of git.rs: showCommit is the raw
character output of the show command for a reference (none when the command
fails); rev_parse abstracts rev-parse with verify. -/
structure StoreEnv where
  showCommit : String → Option (List Char)
  rev_parse : String → Option String

/-- GitStore from git.rs: the commit cache keyed by canonical object id. -/
structure GitStore where
  commits : List (String × Commit)
deriving Repr, DecidableEq

/-- ReadCommit from git.rs: either the key of an already cached commit or a
freshly read record. -/
inductive ReadCommitR where
  | Cached (oid : String)
  | Read (c : Commit)
deriving Repr, DecidableEq

/-- Lookup in the cache map, modelling HashMap::get and contains_key. -/
def cacheFind (s : GitStore) (key : String) : Option Commit :=
  (s.commits.find? (fun p => p.1 == key)).map (fun p => p.2)

/-- GitStore::rev_parse_commit from git.rs: resolve, then dereference to the
nearest enclosing commit. -/
def rev_parse_commit (env : StoreEnv) (rev : String) : Option String :=
  match env.rev_parse rev with
  | none => none
  | some hash => env.rev_parse (hash ++ "^{commit}")

/-- GitStore::rev_parse_commit_ok from git.rs: as rev_parse_commit, failing with
NoSuchCommit on none. -/
def rev_parse_commit_ok (env : StoreEnv) (rev : String) : Except Err String :=
  match rev_parse_commit env rev with
  | some h => .ok h
  | none => .error (.NoSuchCommit rev)

/-- GitStore::read_commit from git.rs, lines 112 to 173: run the show command,
parse its output from the end backward, validate that the canonical id really
names a commit, short-circuit to the cache when the reference is a cached alias
of a different canonical id, and otherwise return the fresh record. -/
def read_commit (env : StoreEnv) (s : GitStore) (hash : String) : Except Err ReadCommitR :=
  match env.showCommit hash with
  | none => .error (.NoSuchCommit hash)
  | some stdout =>
    match readCommitParse stdout with
    | none => .error (.NoSuchCommit hash)
    | some (oidC, parentsC, treeC, msgC) =>
      let output_hash := String.mk oidC
      match rev_parse_commit_ok env output_hash with
      | .error e => .error e
      | .ok h =>
        if h ≠ output_hash then .error (.NoSuchCommit hash)
        else if hash ≠ output_hash ∧ (cacheFind s hash).isSome then
          .ok (.Cached output_hash)
        else
          .ok (.Read ⟨output_hash, parentsC.map String.mk, String.mk treeC, String.mk msgC⟩)

/-- GitStore::commit from git.rs, lines 85 to 110: return the cached entry when
the reference is a known key; otherwise read the commit, short-circuiting through
a Cached answer, and insert a fresh record under its canonical id, where an
existing entry must agree exactly (the assert_eq). The returned flag records
whether a backend read was performed. -/
def GitStore.commit (env : StoreEnv) (s : GitStore) (hash : String) :
    Except Err (Commit × GitStore × Bool) :=
  match cacheFind s hash with
  | some c => .ok (c, s, false)
  | none =>
    match read_commit env s hash with
    | .error e => .error e
    | .ok (.Cached oid) =>
      match cacheFind s oid with
      | some c => .ok (c, s, true)
      | none => .error (.PanicAssert "allegedly cached commit not in map")
    | .ok (.Read c) =>
      match cacheFind s c.oid with
      | some existing =>
        if c = existing then .ok (existing, s, true)
        else .error (.PanicAssert "cached commit differs from fresh read")
      | none => .ok (c, ⟨(c.oid, c) :: s.commits⟩, true)

/-- Concrete cached commit whose canonical id differs from its cache key. -/
def exAlias : Commit := ⟨"Z", [], "T", "aliased commit"⟩

/-- Concrete store containing exAlias under the alias key A. -/
def exStore : GitStore := ⟨[("A", exAlias)]⟩

/-- Concrete store backend that always fails, so any backend read would error. -/
def exStoreEnv : StoreEnv := ⟨fun _ => none, fun _ => none⟩

lemma lookUpTrailerGo_duplicate (key : String) (l : List (String × String)) :
    lookUpTrailerGo key (.Duplicate key) l = .Duplicate key := by
  induction l with
  | nil => rfl
  | cons p l ih =>
    obtain ⟨k, v⟩ := p
    by_cases h : (k == key) = true
    · simp [lookUpTrailerGo, h, TrailerMatch.plus, TrailerMatch.is_duplicate]
    · simp only [lookUpTrailerGo, Bool.not_eq_true] at h ⊢
      rw [h]
      exact ih

lemma matchesOf_cons_pos (key k v : String) (l : List (String × String)) (h : (k == key) = true) :
    matchesOf key ((k, v) :: l) = (k, v) :: matchesOf key l := by
  simp [matchesOf, List.filter, h]

lemma matchesOf_cons_neg (key k v : String) (l : List (String × String)) (h : (k == key) = false) :
    matchesOf key ((k, v) :: l) = matchesOf key l := by
  simp [matchesOf, List.filter, h]

lemma lookUpTrailerGo_unique (key v : String) (l : List (String × String)) :
    lookUpTrailerGo key (.Unique key v) l =
      if matchesOf key l = [] then .Unique key v else .Duplicate key := by
  induction l with
  | nil => simp [lookUpTrailerGo, matchesOf]
  | cons p l ih =>
    obtain ⟨k, w⟩ := p
    by_cases h : (k == key) = true
    · rw [matchesOf_cons_pos key k w l h]
      simp [lookUpTrailerGo, h, TrailerMatch.plus, TrailerMatch.is_duplicate]
    · rw [matchesOf_cons_neg key k w l (by simpa using h)]
      simp only [lookUpTrailerGo, Bool.not_eq_true] at h ⊢
      rw [h]
      exact ih

/-- Shape of a full trailer lookup, as a function of the matching sublist. -/
lemma look_up_trailer_shape (key : String) (ts : List (String × String)) :
    look_up_trailer key ts =
      match matchesOf key ts with
      | [] => TrailerMatch.Missing key
      | (_, v) :: rest =>
        if rest = [] then TrailerMatch.Unique key v else TrailerMatch.Duplicate key := by
  unfold look_up_trailer
  induction ts with
  | nil => simp [lookUpTrailerGo, matchesOf]
  | cons p l ih =>
    obtain ⟨k, w⟩ := p
    by_cases h : (k == key) = true
    · rw [matchesOf_cons_pos key k w l h]
      simp only [lookUpTrailerGo, h, if_true, TrailerMatch.plus, TrailerMatch.is_duplicate]
      rw [lookUpTrailerGo_unique key w l]
      rcases hm : matchesOf key l with _ | ⟨q, rest⟩
      · simp
      · simp
    · rw [matchesOf_cons_neg key k w l (by simpa using h)]
      simp only [lookUpTrailerGo, Bool.not_eq_true] at h ⊢
      rw [h]
      exact ih

lemma matchesOf_mem_key (key : String) (ts : List (String × String))
    {p : String × String} (h : p ∈ matchesOf key ts) : p.1 = key := by
  have := List.mem_filter.mp h
  exact eq_of_beq this.2

/-- Claim C5: for every key and ordered trailer list, the lookup is Missing iff no
pair has the key, Unique with the sole matching value iff exactly one pair has the
key, and Duplicate iff at least two pairs have the key, independent of positions
and of whether repeated values coincide. -/
theorem C5_trailer_lookup (key : String) (ts : List (String × String)) :
    (look_up_trailer key ts = .Missing key ↔ matchesOf key ts = [])
    ∧ (∀ v, look_up_trailer key ts = .Unique key v ↔ matchesOf key ts = [(key, v)])
    ∧ (look_up_trailer key ts = .Duplicate key ↔ 2 ≤ (matchesOf key ts).length) := by
  rw [look_up_trailer_shape key ts]
  rcases hm : matchesOf key ts with _ | ⟨⟨k, v⟩, rest⟩
  · refine ⟨by simp, fun v => ⟨fun h => by simp at h, fun h => by simp at h⟩, by simp⟩
  · have hk : k = key := by
      refine matchesOf_mem_key key ts (p := (k, v)) ?_
      rw [hm]; exact List.mem_cons_self _ _
    subst hk
    rcases rest with _ | ⟨q, rest2⟩
    · refine ⟨by simp, fun w => ?_, by simp⟩
      constructor
      · intro h
        simp only [if_pos rfl] at h
        cases h
        rfl
      · intro h
        cases h
        simp
    · refine ⟨by simp, fun w => ?_, by simp⟩
      constructor
      · intro h
        simp at h
      · intro h
        simp at h

lemma branch_name_unique (t : String → List (String × String)) (oid msg v : String)
    (h : look_up_trailer BRANCH_DIRECTIVE (t msg) = .Unique BRANCH_DIRECTIVE v) :
    branch_name t oid msg = .ok (some (BRANCH_PFX ++ v)) := by
  simp only [branch_name]
  rw [h]
  rfl

lemma branch_name_missing (t : String → List (String × String)) (oid msg : String)
    (h : look_up_trailer BRANCH_DIRECTIVE (t msg) = .Missing BRANCH_DIRECTIVE) :
    branch_name t oid msg = .ok none := by
  simp only [branch_name]
  rw [h]
  rfl

lemma branch_name_dup (t : String → List (String × String)) (oid msg : String)
    (h : look_up_trailer BRANCH_DIRECTIVE (t msg) = .Duplicate BRANCH_DIRECTIVE) :
    branch_name t oid msg = .error (.DuplicateTrailer oid BRANCH_DIRECTIVE) := by
  simp only [branch_name]
  rw [h]
  rfl

/-- Claim C1: whenever step 5 creates a patch commit, the message handed to the
trailer rewrite is selected by the priority table with new_branch dominating:
verbatim source message on a new branch; the bump ci message on an unchanged tree
with bump set; the no-op ci-skip message on an unchanged tree without bump; the
explicit message or update patch otherwise. The formatted variants carry the
terminating newline written by the format strings in the source. -/
theorem C1_message_priority (env : GitEnv) (source_commit base_commit : Commit)
    (allow_empty bump new_branch : Bool) (branch : String) (message : Option String)
    (hcreated : (source_commit.tree == base_commit.tree && !allow_empty) = false) :
    stepFive env source_commit base_commit allow_empty bump new_branch branch message
      = patchStep env source_commit base_commit (source_commit.tree == base_commit.tree)
          bump new_branch branch message
    ∧ (new_branch = true →
        patchMessage new_branch (source_commit.tree == base_commit.tree) bump branch
          source_commit.message message = source_commit.message)
    ∧ (new_branch = false → (source_commit.tree == base_commit.tree) = true → bump = true →
        patchMessage new_branch (source_commit.tree == base_commit.tree) bump branch
          source_commit.message message = "[" ++ branch ++ ": bump ci]\n")
    ∧ (new_branch = false → (source_commit.tree == base_commit.tree) = true → bump = false →
        patchMessage new_branch (source_commit.tree == base_commit.tree) bump branch
          source_commit.message message = "[" ++ branch ++ ": no-op] [ci skip]\n")
    ∧ (new_branch = false → (source_commit.tree == base_commit.tree) = false →
        patchMessage new_branch (source_commit.tree == base_commit.tree) bump branch
          source_commit.message message
          = "[" ++ branch ++ ": " ++ message.getD "update patch" ++ "]\n") := by
  refine ⟨?_, ?_, ?_, ?_, ?_⟩
  · simp only [stepFive]
    rw [hcreated]
    simp
  · intro h1
    simp [patchMessage, h1]
  · intro h1 h2 h3
    simp [patchMessage, h1, h2, h3]
  · intro h1 h2 h3
    simp [patchMessage, h1, h2, h3]
  · intro h1 h2
    simp [patchMessage, h1, h2]

/-- Witness for claim C1: with an unchanged tree, bump set, allow_empty set and
an existing branch, the selected message is the bump ci message. -/
theorem C1_message_priority_witness :
    patchMessage false (exSource.tree == exTip.tree) true "foo" exSource.message none
      = "[foo: bump ci]\n" :=
  (C1_message_priority exEnvTip exSource exTip true true false "foo" none
    (by decide)).2.2.1 rfl (by decide) rfl

/-- Claim C7: when the step 4 merge command fails, integration does not abort:
it stages the whole tree and commits the conflicted state, and only a failure of
the staging or of that commit aborts with an error. -/
theorem C7_merge_failure_commits_conflicts (env : GitEnv)
    (head diffbase branch source_oid : String)
    (hfail : ∀ a b, env.merge head diffbase a b = none) :
    (∀ c, env.stageOk = true → env.conflictCommit head diffbase = some c →
      stepFourMerge env head diffbase branch source_oid
        = .ok (c, [Effect.conflictCommit c]))
    ∧ (env.stageOk = false →
      stepFourMerge env head diffbase branch source_oid
        = .error (.GitContract "failed to stage"))
    ∧ (env.stageOk = true → env.conflictCommit head diffbase = none →
      stepFourMerge env head diffbase branch source_oid
        = .error (.GitContract "failed to commit merge")) := by
  refine ⟨?_, ?_, ?_⟩
  · intro c h1 h2
    simp only [stepFourMerge]
    rw [hfail]
    simp [h1, h2]
  · intro h1
    simp only [stepFourMerge]
    rw [hfail]
    simp [h1]
  · intro h1 h2
    simp only [stepFourMerge]
    rw [hfail]
    simp [h1, h2]

/-- Witness for claim C7: in the conflicting backend the merge failure leads to a
successful conflict commit C rather than an error. -/
theorem C7_merge_failure_witness :
    stepFourMerge exEnvConflict "R" "P" "foo" "S" = .ok ("C", [Effect.conflictCommit "C"]) :=
  (C7_merge_failure_commits_conflicts exEnvConflict "R" "P" "foo" "S"
    (fun _ _ => rfl)).1 "C" rfl rfl

/-- Counterexample for claim C6: the parent commit lacks the branch trailer, yet
integration succeeds with the no-op result instead of failing with
MissingTrailer, because a missing parent trailer only selects the local
diffbase fallback. -/
theorem C6_counterexample :
    look_up_trailer BRANCH_DIRECTIVE (exEnv.trailersOf exParent.message)
        = .Missing BRANCH_DIRECTIVE
    ∧ integrate exEnv exSource "origin" false false none
        = .ok (⟨"P", "wchargin-foo"⟩, []) := by
  constructor
  · rfl
  · rfl

/-- Claim C6 as amended: integration fails with MissingTrailer only when the
source commit lacks the branch trailer; it fails with DuplicateTrailer when the
source commit or its parent carries the trailer more than once; each error names
the offending commit id and the key. A parent lacking the trailer is not an
error. -/
theorem C6_trailer_errors (env : GitEnv) (source_commit : Commit) (remote : String)
    (allow_empty bump : Bool) (message : Option String) :
    (look_up_trailer BRANCH_DIRECTIVE (env.trailersOf source_commit.message)
        = .Missing BRANCH_DIRECTIVE →
      integrate env source_commit remote allow_empty bump message
        = .error (.MissingTrailer source_commit.oid BRANCH_DIRECTIVE))
    ∧ (look_up_trailer BRANCH_DIRECTIVE (env.trailersOf source_commit.message)
        = .Duplicate BRANCH_DIRECTIVE →
      integrate env source_commit remote allow_empty bump message
        = .error (.DuplicateTrailer source_commit.oid BRANCH_DIRECTIVE))
    ∧ (∀ v P, look_up_trailer BRANCH_DIRECTIVE (env.trailersOf source_commit.message)
        = .Unique BRANCH_DIRECTIVE v →
      env.commitOf (source_commit.oid ++ "~^{commit}") = some P →
      look_up_trailer BRANCH_DIRECTIVE (env.trailersOf P.message)
        = .Duplicate BRANCH_DIRECTIVE →
      integrate env source_commit remote allow_empty bump message
        = .error (.DuplicateTrailer P.oid BRANCH_DIRECTIVE)) := by
  refine ⟨?_, ?_, ?_⟩
  · intro h
    have hbn := branch_name_missing env.trailersOf source_commit.oid source_commit.message h
    simp [integrate, hbn]
  · intro h
    have hbn := branch_name_dup env.trailersOf source_commit.oid source_commit.message h
    simp [integrate, hbn]
  · intro v P hs hp hdup
    have hbn := branch_name_unique env.trailersOf source_commit.oid source_commit.message v hs
    have hrd : remoteDiffbase env remote P
        = .error (.DuplicateTrailer P.oid BRANCH_DIRECTIVE) := by
      have hbp := branch_name_dup env.trailersOf P.oid P.message hdup
      simp [remoteDiffbase, hbp]
    simp [integrate, hbn, hp, hrd]

/-- Witness for claim C6 as amended: a source commit without a branch trailer
makes integration fail naming that commit and the key. -/
theorem C6_trailer_errors_witness :
    integrate exEnv exSourceNoTrailer "origin" false false none
      = .error (.MissingTrailer "S2" BRANCH_DIRECTIVE) :=
  (C6_trailer_errors exEnv exSourceNoTrailer "origin" false false none).1 rfl

/-- Counterexample for claim C10: a bump invocation from the CLI on an unchanged
tree with no pre-existing remote target branch creates a commit carrying the
verbatim source message, not the bump ci message, because new_branch dominates
the priority table. -/
theorem C10_counterexample :
    runCli exEnv exSource "origin" false true none
      = .ok (⟨"N", "wchargin-foo"⟩,
          [Effect.commitTree "T" "P" "Fix bug\n\nwchargin-branch: foo" "N"])
    ∧ exSource.tree = exParent.tree
    ∧ "Fix bug\n\nwchargin-branch: foo" ≠ "[foo: bump ci]\n" := by
  refine ⟨?_, rfl, by decide⟩
  rfl

/-- Claim C10 as amended: the CLI forces allow_empty to true whenever bump is
given, so the engine never runs with bump and without allow_empty from the
command line; consequently a bump run on an unchanged tree never takes the no-op
path, and, except when a new branch is being created (where the verbatim source
message takes priority), the created commit carries the bump ci message. -/
theorem C10_bump_forces_allow_empty (ae : Bool) (env : GitEnv)
    (source_commit base_commit : Commit) (nb : Bool) (branch : String)
    (message : Option String) (htree : source_commit.tree = base_commit.tree) :
    effectiveAllowEmpty ae true = true
    ∧ stepFive env source_commit base_commit (effectiveAllowEmpty ae true) true nb branch
        message
      = patchStep env source_commit base_commit (source_commit.tree == base_commit.tree)
          true nb branch message
    ∧ (nb = false →
        patchMessage nb (source_commit.tree == base_commit.tree) true branch
          source_commit.message message = "[" ++ branch ++ ": bump ci]\n") := by
  refine ⟨rfl, ?_, ?_⟩
  · simp [stepFive, effectiveAllowEmpty]
  · intro h
    simp [patchMessage, h, htree]

/-- Witness for claim C10 as amended: concrete flags and commits exercising the
forced allow_empty and the bump ci message. -/
theorem C10_bump_forces_allow_empty_witness :
    effectiveAllowEmpty false true = true
    ∧ patchMessage false (exSource.tree == exTip.tree) true "foo" exSource.message none
        = "[foo: bump ci]\n" :=
  ⟨(C10_bump_forces_allow_empty false exEnvTip exSource exTip false "foo" none rfl).1,
   (C10_bump_forces_allow_empty false exEnvTip exSource exTip false "foo" none rfl).2.2 rfl⟩

lemma stepFourMerge_no_commitTree (env : GitEnv)
    (head diffbase branch source_oid H : String) (fx : List Effect)
    (h : stepFourMerge env head diffbase branch source_oid = .ok (H, fx)) :
    ∀ t p m r, Effect.commitTree t p m r ∉ fx := by
  intro t p m r
  simp only [stepFourMerge] at h
  split at h
  · simp only [Except.ok.injEq, Prod.mk.injEq] at h
    rw [← h.2]
    simp
  · split at h
    · split at h
      · simp only [Except.ok.injEq, Prod.mk.injEq] at h
        rw [← h.2]
        simp
      · exact absurd h (by simp)
    · exact absurd h (by simp)

/-- Claim C2: in every integration run in which the source tree equals the tree
of HEAD after the step 4 merge and allow_empty is false, the result is the
post-merge HEAD id itself and no commit-tree call is made, regardless of bump.
The hypotheses fix the backend responses of steps 0 through 4; B is the
post-merge HEAD commit, whose oid is H. -/
theorem C2_unchanged_tree_noop (env : GitEnv) (source_commit P B : Commit)
    (remote : String) (bump : Bool) (message : Option String) (v D H : String)
    (fx : List Effect)
    (hsrc : look_up_trailer BRANCH_DIRECTIVE (env.trailersOf source_commit.message)
      = .Unique BRANCH_DIRECTIVE v)
    (hparent : env.commitOf (source_commit.oid ++ "~^{commit}") = some P)
    (hdb : remoteDiffbase env remote P = .ok D)
    (hco : env.checkoutOk ((remote_branch_oid env remote (BRANCH_PFX ++ v)).getD D) = true)
    (hs4 : stepFourMerge env ((remote_branch_oid env remote (BRANCH_PFX ++ v)).getD D) D
        ((BRANCH_PFX ++ v).drop BRANCH_PFX.length) source_commit.oid = .ok (H, fx))
    (hbase : env.commitOf H = some B)
    (hoid : B.oid = H)
    (htree : source_commit.tree = B.tree) :
    integrate env source_commit remote false bump message
      = .ok (⟨H, BRANCH_PFX ++ v⟩, fx)
    ∧ ∀ t pr m r, Effect.commitTree t pr m r ∉ fx := by
  have hbn := branch_name_unique env.trailersOf source_commit.oid source_commit.message v hsrc
  have h5 : stepFive env source_commit B false bump
      (remote_branch_oid env remote (BRANCH_PFX ++ v)).isNone
      ((BRANCH_PFX ++ v).drop BRANCH_PFX.length) message = .ok (B.oid, []) := by
    simp [stepFive, htree]
  refine ⟨?_, stepFourMerge_no_commitTree env _ D _ source_commit.oid H fx hs4⟩
  simp [integrate, hbn, hparent, hdb, hco, hs4, hbase, h5, hoid]

/-- Witness for claim C2: the remote tip R already has the source tree, the merge
lands on R, and the run returns R with no created commit, with bump set. -/
theorem C2_unchanged_tree_noop_witness :
    integrate exEnvTip exSource "origin" false true none
      = .ok (⟨"R", "wchargin-foo"⟩, []) :=
  (C2_unchanged_tree_noop exEnvTip exSource exParent exTip "origin" true none
    "foo" "P" "R" [] rfl rfl rfl rfl rfl rfl rfl rfl).1

/-- Claim C3: integration is idempotent. When the remote target branch tip R
already has the source tree, checkout succeeds, and merging the remote diffbase
into R is a no-op, any run with allow_empty false returns the post-merge tip
commit and creates no commit object; being a pure function of the backend state,
repeated runs return the same result. -/
theorem C3_idempotent (env : GitEnv) (source_commit : Commit) (remote : String)
    (bump : Bool) (message : Option String) (v R D : String) (P B : Commit)
    (hsrc : look_up_trailer BRANCH_DIRECTIVE (env.trailersOf source_commit.message)
      = .Unique BRANCH_DIRECTIVE v)
    (hparent : env.commitOf (source_commit.oid ++ "~^{commit}") = some P)
    (hdb : remoteDiffbase env remote P = .ok D)
    (htip : env.resolveRef ("refs/remotes/" ++ remote ++ "/" ++ (BRANCH_PFX ++ v)) = some R)
    (hco : env.checkoutOk R = true)
    (hmerge : ∀ a b, env.merge R D a b = some R)
    (hbase : env.commitOf R = some B)
    (htree : B.tree = source_commit.tree) :
    integrate env source_commit remote false bump message
      = .ok (⟨B.oid, BRANCH_PFX ++ v⟩, []) := by
  have hbn := branch_name_unique env.trailersOf source_commit.oid source_commit.message v hsrc
  have hmh : remote_branch_oid env remote (BRANCH_PFX ++ v) = some R := by
    simpa [remote_branch_oid] using htip
  have hs4 : stepFourMerge env R D ((BRANCH_PFX ++ v).drop BRANCH_PFX.length)
      source_commit.oid = .ok (R, []) := by
    simp only [stepFourMerge]
    rw [hmerge]
  have h5 : stepFive env source_commit B false bump false
      ((BRANCH_PFX ++ v).drop BRANCH_PFX.length) message = .ok (B.oid, []) := by
    simp [stepFive, htree]
  simp [integrate, hbn, hparent, hdb, hmh, hco, hs4, hbase, h5]

/-- Witness for claim C3: re-running the integration against the tip R with the
source tree leaves everything in place and creates nothing. -/
theorem C3_idempotent_witness :
    integrate exEnvTip exSource "origin" false false none
      = .ok (⟨"R", "wchargin-foo"⟩, []) := by
  exact C3_idempotent exEnvTip exSource "origin" false none "foo" "R" "P" exParent exTip
    rfl rfl rfl rfl rfl (fun a b => rfl) rfl rfl

/-- Claim C4: for a sole parent, the remote diffbase is the remote branch tip of
the parent's unique branch trailer when that branch resolves, and the parent's
own id in every other non-error case (no trailer on the parent, or no such
remote branch). -/
theorem C4_remote_diffbase (env : GitEnv) (remote : String) (P : Commit) :
    (∀ v R, look_up_trailer BRANCH_DIRECTIVE (env.trailersOf P.message)
        = .Unique BRANCH_DIRECTIVE v →
      env.resolveRef ("refs/remotes/" ++ remote ++ "/" ++ (BRANCH_PFX ++ v)) = some R →
      remoteDiffbase env remote P = .ok R)
    ∧ (∀ v, look_up_trailer BRANCH_DIRECTIVE (env.trailersOf P.message)
        = .Unique BRANCH_DIRECTIVE v →
      env.resolveRef ("refs/remotes/" ++ remote ++ "/" ++ (BRANCH_PFX ++ v)) = none →
      remoteDiffbase env remote P = .ok P.oid)
    ∧ (look_up_trailer BRANCH_DIRECTIVE (env.trailersOf P.message)
        = .Missing BRANCH_DIRECTIVE →
      remoteDiffbase env remote P = .ok P.oid) := by
  refine ⟨?_, ?_, ?_⟩
  · intro v R h1 h2
    have hbn := branch_name_unique env.trailersOf P.oid P.message v h1
    simp [remoteDiffbase, hbn, remote_branch_oid, h2]
  · intro v h1 h2
    have hbn := branch_name_unique env.trailersOf P.oid P.message v h1
    simp [remoteDiffbase, hbn, remote_branch_oid, h2]
  · intro h1
    have hbn := branch_name_missing env.trailersOf P.oid P.message h1
    simp [remoteDiffbase, hbn]

/-- Witness for claim C4: the parent carries the base trailer and the remote
branch exists at RB, so the remote diffbase is RB rather than the parent id. -/
theorem C4_remote_diffbase_witness :
    remoteDiffbase exEnvB "origin" exParentBase = .ok "RB" :=
  (C4_remote_diffbase exEnvB "origin" exParentBase).1 "base" "RB" rfl rfl

lemma rfindIdx_eq_none {c : Char} {l : List Char} (h : c ∉ l) : rfindIdx c l = none := by
  induction l with
  | nil => rfl
  | cons a l ih =>
    simp only [List.mem_cons, not_or] at h
    simp only [rfindIdx, ih h.2]
    exact if_neg (fun hac => h.1 hac.symm)

lemma rfindIdx_append_of_not_mem {c : Char} (l1 l2 : List Char) (h : c ∉ l2) :
    rfindIdx c (l1 ++ l2) = rfindIdx c l1 := by
  induction l1 with
  | nil =>
    simp only [List.nil_append, rfindIdx_eq_none h]
    rfl
  | cons a l ih =>
    simp only [List.cons_append, rfindIdx, List.append_eq, ih]

lemma rfindIdx_append_last {c : Char} (l1 l2 : List Char) (h : c ∉ l2) :
    rfindIdx c (l1 ++ c :: l2) = some l1.length := by
  induction l1 with
  | nil =>
    simp only [List.nil_append, rfindIdx, rfindIdx_eq_none h, if_pos rfl]
    rfl
  | cons a l ih =>
    simp only [List.cons_append, rfindIdx, List.append_eq, ih, List.length_cons]

lemma rfindIdx_lt_length {c : Char} {l : List Char} {i : Nat}
    (h : rfindIdx c l = some i) : i < l.length := by
  induction l generalizing i with
  | nil => simp [rfindIdx] at h
  | cons a l ih =>
    simp only [rfindIdx] at h
    cases hf : rfindIdx c l with
    | some j =>
      rw [hf] at h
      simp only [Option.some.injEq] at h
      rw [← h]
      simpa using Nat.succ_lt_succ (ih hf)
    | none =>
      rw [hf] at h
      by_cases hac : a = c
      · rw [if_pos hac] at h
        simp only [Option.some.injEq] at h
        rw [← h]
        simp
      · rw [if_neg hac] at h
        cases h

lemma take_append_cons (l1 l2 : List Char) (c : Char) :
    (l1 ++ c :: l2).take l1.length = l1 := by
  induction l1 with
  | nil => rfl
  | cons a l ih => simp only [List.cons_append, List.length_cons, List.take_succ_cons, ih]

lemma drop_append_cons (l1 l2 : List Char) (c : Char) :
    (l1 ++ c :: l2).drop (l1.length + 1) = l2 := by
  induction l1 with
  | nil => rfl
  | cons a l ih =>
    simpa only [List.cons_append, List.length_cons, List.drop_succ_cons] using ih

lemma NL_not_mem_spaceSeparated (ps : List (List Char)) (h : ∀ p ∈ ps, NL ∉ p) :
    NL ∉ spaceSeparated ps := by
  induction ps with
  | nil => simp [spaceSeparated]
  | cons p ps ih =>
    cases ps with
    | nil => simpa [spaceSeparated] using h p (by simp)
    | cons q qs =>
      simp only [spaceSeparated, List.mem_append, List.mem_cons, not_or]
      refine ⟨h p (by simp), by decide, ?_⟩
      exact ih (fun r hr => h r (List.mem_cons_of_mem _ hr))

lemma spaceSeparated_snoc (qs : List (List Char)) (p : List Char) (h : qs ≠ []) :
    spaceSeparated (qs ++ [p]) = spaceSeparated qs ++ SP :: p := by
  induction qs with
  | nil => exact absurd rfl h
  | cons q qs ih =>
    cases qs with
    | nil => rfl
    | cons r rs =>
      have hrec := ih (by simp)
      have e1 : spaceSeparated (q :: r :: (rs ++ [p]))
          = q ++ SP :: spaceSeparated (r :: (rs ++ [p])) := rfl
      have e2 : spaceSeparated (q :: r :: rs) = q ++ SP :: spaceSeparated (r :: rs) := rfl
      simp only [List.cons_append] at hrec ⊢
      rw [e1, e2, hrec]
      simp

lemma parseParentsGo_spec (msg : List Char) (ps : List (List Char)) :
    ∀ acc : List (List Char), (∀ p ∈ ps, p ≠ [] ∧ NL ∉ p ∧ SP ∉ p) →
    parseParentsGo msg.length (msg ++ NL :: spaceSeparated ps) acc = (ps ++ acc, msg) := by
  induction ps using List.reverseRecOn with
  | nil =>
    intro acc hps
    have hfin : (if ((msg ++ NL :: spaceSeparated []).drop (msg.length + 1)).isEmpty then acc
          else (msg ++ NL :: spaceSeparated []).drop (msg.length + 1) :: acc,
        (msg ++ NL :: spaceSeparated []).take msg.length) = ([] ++ acc, msg) := by
      rw [show spaceSeparated [] = [] from rfl]
      rw [drop_append_cons msg [] NL, take_append_cons msg [] NL]
      simp
    rw [parseParentsGo]
    rw [rfindIdx_append_of_not_mem msg (NL :: spaceSeparated []) (by decide)]
    cases hf : rfindIdx SP msg with
    | none => exact hfin
    | some i =>
      have hlt := rfindIdx_lt_length hf
      have hng : ¬(msg.length < i ∧ i < (msg ++ NL :: spaceSeparated []).length) := by
        intro hc
        omega
      exact (dif_neg hng).trans hfin
  | append_singleton qs p ih =>
    intro acc hps
    have hp := hps p (by simp)
    obtain ⟨hpne, hpNL, hpSP⟩ := hp
    by_cases hq : qs = []
    · subst hq
      have hfin : (if ((msg ++ NL :: p).drop (msg.length + 1)).isEmpty then acc
            else (msg ++ NL :: p).drop (msg.length + 1) :: acc,
          (msg ++ NL :: p).take msg.length) = ([] ++ [p] ++ acc, msg) := by
        rw [drop_append_cons msg p NL, take_append_cons msg p NL]
        simp [List.isEmpty_iff, hpne]
      rw [show spaceSeparated ([] ++ [p]) = p from rfl]
      rw [parseParentsGo]
      rw [rfindIdx_append_of_not_mem msg (NL :: p)
        (by simp only [List.mem_cons, not_or]; exact ⟨by decide, hpSP⟩)]
      cases hf : rfindIdx SP msg with
      | none => exact hfin
      | some i =>
        have hlt := rfindIdx_lt_length hf
        have hng : ¬(msg.length < i ∧ i < (msg ++ NL :: p).length) := by
          intro hc
          omega
        exact (dif_neg hng).trans hfin
    · rw [spaceSeparated_snoc qs p hq]
      have e : msg ++ NL :: (spaceSeparated qs ++ SP :: p)
          = (msg ++ NL :: spaceSeparated qs) ++ SP :: p := by simp
      rw [e]
      rw [parseParentsGo]
      rw [rfindIdx_append_last (msg ++ NL :: spaceSeparated qs) p hpSP]
      have hguard : msg.length < (msg ++ NL :: spaceSeparated qs).length
          ∧ (msg ++ NL :: spaceSeparated qs).length
              < ((msg ++ NL :: spaceSeparated qs) ++ SP :: p).length := by
        simp only [List.length_append, List.length_cons]
        omega
      refine (dif_pos hguard).trans ?_
      rw [take_append_cons (msg ++ NL :: spaceSeparated qs) p SP,
        drop_append_cons (msg ++ NL :: spaceSeparated qs) p SP]
      rw [ih (p :: acc) (fun r hr => hps r (by simp [hr]))]
      simp

/-- Claim C8: a backend reply of the form message, newline, space-separated
parents, newline, tree, newline, canonical id is parsed from the end backward
into exactly that id, those parents in order (empty list for an empty parent
field), that tree and that message, even when the message itself contains
newlines and spaces. The parent entries are nonempty and free of separators, and
the tree and id fields contain no newline, as for real git output. -/
theorem C8_read_commit_roundtrip (msg tr hsh : List Char) (ps : List (List Char))
    (hT : NL ∉ tr) (hH : NL ∉ hsh)
    (hps : ∀ p ∈ ps, p ≠ [] ∧ NL ∉ p ∧ SP ∉ p) :
    readCommitParse (msg ++ NL :: spaceSeparated ps ++ NL :: tr ++ NL :: hsh)
      = some (hsh, ps, tr, msg) := by
  have hPs : NL ∉ spaceSeparated ps :=
    NL_not_mem_spaceSeparated ps (fun p hp => (hps p hp).2.1)
  have e1 : msg ++ NL :: spaceSeparated ps ++ NL :: tr ++ NL :: hsh
      = (msg ++ NL :: spaceSeparated ps ++ NL :: tr) ++ NL :: hsh := by simp
  have h1 := rfindIdx_append_last (msg ++ NL :: spaceSeparated ps ++ NL :: tr) hsh hH
  have ht1 := take_append_cons (msg ++ NL :: spaceSeparated ps ++ NL :: tr) hsh NL
  have hd1 := drop_append_cons (msg ++ NL :: spaceSeparated ps ++ NL :: tr) hsh NL
  have e2 : msg ++ NL :: spaceSeparated ps ++ NL :: tr
      = (msg ++ NL :: spaceSeparated ps) ++ NL :: tr := by simp
  have h2 := rfindIdx_append_last (msg ++ NL :: spaceSeparated ps) tr hT
  have ht2 := take_append_cons (msg ++ NL :: spaceSeparated ps) tr NL
  have hd2 := drop_append_cons (msg ++ NL :: spaceSeparated ps) tr NL
  have h3 := rfindIdx_append_last msg (spaceSeparated ps) hPs
  have hloop := parseParentsGo_spec msg ps [] hps
  rw [e1]
  simp only [readCommitParse, h1, ht1, hd1, e2, h2, ht2, hd2, h3, hloop, List.append_nil]

/-- Witness for claim C8: a concrete reply whose message contains newlines and
spaces and whose parent field holds two parents parses to its components. -/
theorem C8_read_commit_roundtrip_witness :
    readCommitParse ("Fix bug\n\nbody text".toList
        ++ NL :: spaceSeparated ["par1".toList, "par2".toList]
        ++ NL :: "tree1".toList ++ NL :: "hash9".toList)
      = some ("hash9".toList, ["par1".toList, "par2".toList],
          "tree1".toList, "Fix bug\n\nbody text".toList) :=
  C8_read_commit_roundtrip "Fix bug\n\nbody text".toList "tree1".toList "hash9".toList
    ["par1".toList, "par2".toList] (by decide) (by decide) (by decide)

/-- Claim C9: when the reference passed to the commit getter is already a cached
key whose stored canonical id differs from the reference text, the getter
short-circuits to the cached entry: the store is unchanged and no backend read
is performed, so no new commit record is constructed or inserted. -/
theorem C9_cached_alias_short_circuit (env : StoreEnv) (s : GitStore) (ref : String)
    (c : Commit) (hcached : cacheFind s ref = some c) (hdiff : c.oid ≠ ref) :
    GitStore.commit env s ref = .ok (c, s, false) := by
  simp [GitStore.commit, hcached]

/-- Witness for claim C9: the store holding exAlias under the alias key A
returns it unchanged even though the backend would fail on any read. -/
theorem C9_cached_alias_short_circuit_witness :
    GitStore.commit exStoreEnv exStore "A" = .ok (exAlias, exStore, false) :=
  C9_cached_alias_short_circuit exStoreEnv exStore "A" exAlias rfl (by decide)

end GitDx
